import Mathlib

/-!
Verification development for the oddjob distributed job queue.

The definitions below are a shallow embedding of the queue's storage
connectors and job lifecycle methods:

- the storage connector operations `pollForRunnableJob`, `updateRunningJob`,
  `updateJobById` and `saveJob`, from
  `packages/oddjob-mongodb/src/mongodb-connector.js` (latest revision) and
  `packages/oddjob-sqlite/src/sqlite-connector.js` (latest revision);
- the `Job` lifecycle methods `_complete`, `_fail`, `updateTimeout`, `_save`
  and the constructor's `scheduled` computation, from
  `packages/oddjob/src/job.js` (latest revision);
- the `JobQueue` engine's `push` and the running-job cancellation wiring
  (`_addRunningJob`, `_cancelRunningJob`, `_cancelTimedOutJobs`).

Instants are modelled as integers (milliseconds since the epoch); nullable
columns are `Option`; the persisted jobs table is a list of records; the
opaque cron helper `getNextOccurrence` is passed in as a value.
-/

deriving instance DecidableEq for Except

namespace Oddjob

/-- Status enum of a job row, as stored in the `status` column. -/
inductive Status where
  | waiting
  | running
  | error
  | failed
  | completed
  | expired
  | canceled
  | ignore
deriving DecidableEq

/-- Stopwatch durations recorded by `Job._complete` (milliseconds). -/
structure Stopwatches where
  waiting : Option Int
  running : Option Int
  completed : Option Int
deriving DecidableEq

/-- One persisted row of the jobs table / collection. Field names follow the
schema in the connectors; `try` is a Lean keyword so the attempt counter is
called `try_`. Instants are integers (ms since epoch); nullable columns are
`Option`. -/
structure JobRec where
  id : Nat
  type : String
  unique_id : Option String
  worker : Option String
  recurring : Option String
  status : Status
  retries : Int
  try_ : Int
  priority : Int
  scheduled : Int
  acquired : Option Int
  timeout : Option Int
  expire : Option Int
  completed : Option Int
  created : Int
  modified : Int
  stopwatches : Option Stopwatches
deriving DecidableEq

/-- A field patch as passed to the connectors' update operations (the `$set`
document in MongoDB, the `update` object in knex). A field that is `none` is
absent from the patch; for nullable columns, `some none` sets the column to
null. -/
structure Patch where
  status : Option Status
  scheduled : Option Int
  acquired : Option (Option Int)
  timeout : Option (Option Int)
  worker : Option (Option String)
  try_ : Option Int
  modified : Option Int
  completed : Option Int
  stopwatches : Option Stopwatches
deriving DecidableEq

/-- The patch with no fields set. -/
def emptyPatch : Patch :=
  { status := none, scheduled := none, acquired := none, timeout := none,
    worker := none, try_ := none, modified := none, completed := none,
    stopwatches := none }

/-- Application of a field patch to a row: each field present in the patch
overwrites the row's field, every other field is kept (the `$set` / SQL
`UPDATE ... SET` semantics used by both connectors). -/
def applyPatch (p : Patch) (j : JobRec) : JobRec :=
  { j with
    status := p.status.getD j.status,
    scheduled := p.scheduled.getD j.scheduled,
    acquired := p.acquired.getD j.acquired,
    timeout := p.timeout.getD j.timeout,
    worker := p.worker.getD j.worker,
    try_ := p.try_.getD j.try_,
    modified := p.modified.getD j.modified,
    completed := match p.completed with | some v => some v | none => j.completed,
    stopwatches := match p.stopwatches with | some s => some s | none => j.stopwatches }

/-- Comparison `timeout <= now` as evaluated by the poll queries: a null
timeout does not satisfy the comparison (MongoDB `$lte` against a date does
not match null; SQL `timeout <= ?` is not true for NULL). -/
def timeoutElapsed (t : Option Int) (now : Int) : Bool :=
  match t with
  | some x => decide (x ≤ now)
  | none => false

/-- Selection predicate of `pollForRunnableJob`, from
mongodb-connector.js (lines 345-374 of the latest revision) and identically
sqlite-connector.js (lines 718-747 of the latest revision): the job's type is
in the requested list, `scheduled <= now`, and the job is waiting, or running
with an expired lock, or in error, or failed but recurring. The MongoDB
query's additional `status $in [waiting, running, error, failed]` conjunct is
subsumed by the `$or` branches. -/
def runnable (now : Int) (types : List String) (j : JobRec) : Bool :=
  decide (j.type ∈ types) && decide (j.scheduled ≤ now) &&
    (decide (j.status = Status.waiting) ||
     (decide (j.status = Status.running) && timeoutElapsed j.timeout now) ||
     decide (j.status = Status.error) ||
     (decide (j.status = Status.failed) && decide (j.recurring ≠ none)))

/-- Lexicographic ordering used by the poll sort: ascending `priority`, then
ascending `created`. -/
def lexLE (a b : JobRec) : Prop :=
  a.priority < b.priority ∨ (a.priority = b.priority ∧ a.created ≤ b.created)

/-- Strict version of the poll sort order: `a` sorts strictly before `b`. -/
def sortsBefore (a b : JobRec) : Bool :=
  decide (a.priority < b.priority) ||
    (decide (a.priority = b.priority) && decide (a.created < b.created))

/-- First row in sort order (ascending `priority`, then ascending `created`)
among a list of candidate rows; ties beyond the sort keys are broken by list
position, matching an arbitrary but fixed choice by the database. -/
def pickMin : List JobRec → Option JobRec
  | [] => none
  | j :: js =>
    match pickMin js with
    | none => some j
    | some m => if sortsBefore m j then some m else some j

theorem lexLE_refl (a : JobRec) : lexLE a a :=
  Or.inr ⟨rfl, le_refl _⟩

theorem lexLE_trans {a b c : JobRec} (h1 : lexLE a b) (h2 : lexLE b c) :
    lexLE a c := by
  rcases h1 with h1 | ⟨h1, h1c⟩ <;> rcases h2 with h2 | ⟨h2, h2c⟩
  · exact Or.inl (lt_trans h1 h2)
  · exact Or.inl (h2 ▸ h1)
  · exact Or.inl (h1 ▸ h2)
  · exact Or.inr ⟨h1.trans h2, le_trans h1c h2c⟩

theorem lexLE_of_sortsBefore {a b : JobRec} (h : sortsBefore a b = true) :
    lexLE a b := by
  unfold sortsBefore at h
  simp only [Bool.or_eq_true, Bool.and_eq_true, decide_eq_true_eq] at h
  rcases h with h | ⟨h, hc⟩
  · exact Or.inl h
  · exact Or.inr ⟨h, le_of_lt hc⟩

theorem lexLE_of_not_sortsBefore {a b : JobRec} (h : sortsBefore a b = false) :
    lexLE b a := by
  unfold sortsBefore at h
  simp only [Bool.or_eq_false_iff, Bool.and_eq_false_iff, decide_eq_false_iff_not,
    not_lt] at h
  obtain ⟨h1, h2⟩ := h
  rcases lt_or_eq_of_le h1 with hlt | heq
  · exact Or.inl hlt
  · rcases h2 with h2 | h2
    · exact absurd heq.symm (by simpa using h2)
    · exact Or.inr ⟨heq, by simpa using h2⟩

theorem pickMin_eq_none {l : List JobRec} : pickMin l = none ↔ l = [] := by
  cases l with
  | nil => simp [pickMin]
  | cons j js =>
    cases h : pickMin js with
    | none => simp [pickMin, h]
    | some m =>
      simp only [pickMin, h]
      split <;> simp

theorem pickMin_mem {l : List JobRec} {m : JobRec} (h : pickMin l = some m) :
    m ∈ l := by
  induction l with
  | nil => simp [pickMin] at h
  | cons j js ih =>
    cases hp : pickMin js with
    | none =>
      simp only [pickMin, hp] at h
      cases h
      exact List.mem_cons_self _ _
    | some m' =>
      simp only [pickMin, hp] at h
      by_cases hs : sortsBefore m' j = true
      · rw [if_pos hs] at h
        cases h
        exact List.mem_cons_of_mem _ (ih hp)
      · rw [if_neg hs] at h
        cases h
        exact List.mem_cons_self _ _

theorem pickMin_min {l : List JobRec} {m : JobRec} (h : pickMin l = some m) :
    ∀ x ∈ l, lexLE m x := by
  induction l generalizing m with
  | nil => simp [pickMin] at h
  | cons j js ih =>
    cases hp : pickMin js with
    | none =>
      simp only [pickMin, hp] at h
      cases h
      have hnil : js = [] := pickMin_eq_none.mp hp
      subst hnil
      intro x hx
      simp at hx
      subst hx
      exact lexLE_refl _
    | some m' =>
      simp only [pickMin, hp] at h
      by_cases hs : sortsBefore m' j = true
      · rw [if_pos hs] at h
        cases h
        intro x hx
        rcases List.mem_cons.mp hx with hx | hx
        · subst hx; exact lexLE_of_sortsBefore hs
        · exact ih hp x hx
      · rw [if_neg hs] at h
        cases h
        intro x hx
        rcases List.mem_cons.mp hx with hx | hx
        · subst hx; exact lexLE_refl _
        · exact lexLE_trans
            (lexLE_of_not_sortsBefore (Bool.eq_false_iff.mpr hs)) (ih hp x hx)

/-- Claim update performed atomically with the selection by
`pollForRunnableJob` in both connectors: set `status=running`,
`acquired=now`, `timeout=newTimeout`, `worker=workerId`, `modified=now` and
increment `try` by 1 (mongodb-connector.js `$set`/`$inc`,
sqlite-connector.js `update(...).increment('try', 1)`). -/
def claimUpdate (now newTimeout : Int) (workerId : String) (j : JobRec) : JobRec :=
  { j with
    status := Status.running,
    acquired := some now,
    timeout := some newTimeout,
    worker := some workerId,
    modified := now,
    try_ := j.try_ + 1 }

/-- Guard of `updateRunningJob` in both connectors: the row with the lease's
id must still have `status=running`, `acquired=leaseRef.acquired` and
`timeout=leaseRef.timeout`. -/
def leaseGuard (id : Nat) (acquired timeout : Option Int) (j : JobRec) : Bool :=
  decide (j.id = id ∧ j.status = Status.running ∧
    j.acquired = acquired ∧ j.timeout = timeout)

namespace Mongodb

/-- MongodbConnector.pollForRunnableJob (latest revision, the connector file
bundled with its test suite, lines 345-408): `findOneAndUpdate` with the
selection predicate `runnable`, sort ascending priority then ascending
created, the claim update, and `returnDocument: 'after'`, so the value
returned is the post-image of the claimed row. Returns the (possibly
updated) jobs table alongside. -/
def pollForRunnableJob (store : List JobRec) (types : List String)
    (newTimeout : Int) (workerId : String) (now : Int) :
    Option JobRec × List JobRec :=
  match pickMin (store.filter (runnable now types)) with
  | none => (none, store)
  | some c =>
    let c' := claimUpdate now newTimeout workerId c
    (some c', store.map fun k => if k.id = c.id then c' else k)

/-- MongodbConnector.updateRunningJob (lines 410-433): `findOneAndUpdate`
guarded by `status='running' ∧ acquired ∧ timeout`, applying the patch and
returning the post-image; `none` when no row matches the guard. -/
def updateRunningJob (store : List JobRec) (id : Nat)
    (acquired timeout : Option Int) (update : Patch) :
    Option JobRec × List JobRec :=
  match store.find? (leaseGuard id acquired timeout) with
  | none => (none, store)
  | some j =>
    let j' := applyPatch update j
    (some j', store.map fun k => if k.id = id then j' else k)

/-- MongodbConnector.updateJobById (lines 309-327): unconditional patch of
the row with the given id, returning the post-image. -/
def updateJobById (store : List JobRec) (id : Nat) (update : Patch) :
    Option JobRec × List JobRec :=
  match store.find? (fun j => decide (j.id = id)) with
  | none => (none, store)
  | some j =>
    let j' := applyPatch update j
    (some j', store.map fun k => if k.id = id then j' else k)

/-- Unique-index violation check behind the `duplicate-key` error of
MongodbConnector.saveJob: some other row (different id) carries the same
non-null `unique_id` (the `{unique_id: 1} unique sparse` index). -/
def hasDuplicateUniqueId (store : List JobRec) (job : JobRec) : Bool :=
  match job.unique_id with
  | none => false
  | some u => store.any fun k => decide (k.id ≠ job.id ∧ k.unique_id = some u)

/-- Storage error surfaced by saveJob: the mapped `duplicate-key` error
(MongoDB error code 11000 / SQLite errno 19), or any other storage failure,
which the connector rethrows as-is. -/
inductive SaveErr where
  | duplicateKey
  | storageFailure
deriving DecidableEq

/-- MongodbConnector.saveJob (lines 262-295): upsert by id; a unique-index
violation on `unique_id` is mapped to the `duplicate-key` error; any other
error propagates. The id assignment performed by `createJob` when the input
has no id is modelled by the caller supplying the fresh id on the record. -/
def saveJob (store : List JobRec) (job : JobRec) :
    Except SaveErr (List JobRec × JobRec) :=
  if hasDuplicateUniqueId store job then Except.error SaveErr.duplicateKey
  else if store.any fun k => decide (k.id = job.id) then
    Except.ok (store.map fun k => if k.id = job.id then job else k, job)
  else Except.ok (store ++ [job], job)

/-- MongodbConnector.writeJobResult (lines 470-483): insert one result row
keyed by the job id. The results collection is modelled as a list of
(job id, message) pairs. -/
def writeJobResult (results : List (Nat × String)) (id : Nat)
    (message : String) : List (Nat × String) :=
  results ++ [(id, message)]

end Mongodb

namespace Sqlite

/-- Local mirroring of the claim update performed by
SqliteConnector.pollForRunnableJob on the candidate row it returns:
`Object.assign(data, update)` where `update` holds `status`, `acquired`,
`timeout`, `worker` and `modified` but not the `try` increment, which is
applied to the database row only. -/
def localClaimAssign (now newTimeout : Int) (workerId : String) (j : JobRec) :
    JobRec :=
  { j with
    status := Status.running,
    acquired := some now,
    timeout := some newTimeout,
    worker := some workerId,
    modified := now }

/-- SqliteConnector.pollForRunnableJob (latest revision, lines 718-804):
select the first candidate under the selection predicate ordered by
ascending priority then ascending created, then apply the claim update
guarded by `id` and `modified` (in this sequential model the guard always
passes, so the claimed path is taken whenever a candidate exists). The
persisted row receives the full claim update including the `try` increment;
the returned record is the candidate with only `Object.assign(data, update)`
applied. -/
def pollForRunnableJob (store : List JobRec) (types : List String)
    (newTimeout : Int) (workerId : String) (now : Int) :
    Option JobRec × List JobRec :=
  match pickMin (store.filter (runnable now types)) with
  | none => (none, store)
  | some c =>
    let persisted := claimUpdate now newTimeout workerId c
    (some (localClaimAssign now newTimeout workerId c),
     store.map fun k => if k.id = c.id then persisted else k)

end Sqlite

namespace Job

/-- Job.isComplete accessor: the in-memory row has status `completed`. -/
def isComplete (j : JobRec) : Bool :=
  decide (j.status = Status.completed)

/-- Job.hasTimedOut accessor: `timeout != null && timeout <= now`. -/
def hasTimedOut (j : JobRec) (now : Int) : Bool :=
  match j.timeout with
  | some t => decide (t ≤ now)
  | none => false

/-- JavaScript truthiness of an optional string (used by the source's
`if (this.recurring)` and `x || null` idioms): set and non-empty. -/
def truthyStr : Option String → Bool
  | some s => decide (s ≠ "")
  | none => false

/-- Stopwatch record computed by Job._complete: `waiting` from scheduled to
acquired, `running` from acquired to now, `completed` from scheduled to now;
the entries needing `acquired` are null when it is null (in a stored row
`scheduled` is always set, so the source's truthiness checks on it pass). -/
def stopwatchesAt (j : JobRec) (now : Int) : Stopwatches :=
  { waiting := match j.acquired with
      | some a => some (a - j.scheduled)
      | none => none,
    running := match j.acquired with
      | some a => some (now - a)
      | none => none,
    completed := some (now - j.scheduled) }

/-- Patch assembled by Job._complete (job.js latest revision, lines 402-443):
always clear `timeout`, set `modified` and `stopwatches`; when the job is
recurring additionally set `status='waiting'`, `scheduled=nextOccurrence`,
clear `acquired` and reset `try` to 0; otherwise set `status='completed'`
and `completed=now`. `nextOcc` is the value of the opaque cron helper
`getNextOccurrence(recurring)`. -/
def completePatch (j : JobRec) (now nextOcc : Int) : Patch :=
  let base : Patch :=
    { emptyPatch with
      timeout := some none,
      modified := some now,
      stopwatches := some (stopwatchesAt j now) }
  if truthyStr j.recurring then
    { base with
      status := some Status.waiting,
      scheduled := some nextOcc,
      acquired := some none,
      try_ := some 0 }
  else
    { base with
      status := some Status.completed,
      completed := some now }

/-- Errors raised by Job._complete: the two state guards and the lease-lost
case when `updateRunningJob` returns null. -/
inductive CompleteErr where
  | alreadyCompleted
  | timedOut
  | leaseLost
deriving DecidableEq

/-- Job._complete (job.js latest revision, lines 402-463): reject when the
job is already complete or its lock has timed out; otherwise apply the
completion patch through `updateRunningJob` on the current lease
(`this._data` supplies `{id, acquired, timeout}`); raise when the lease is
gone; finally write a result row iff the handler result is non-null. -/
def completeJob (jobs : List JobRec) (results : List (Nat × String))
    (j : JobRec) (result : Option String) (now nextOcc : Int) :
    Except CompleteErr (JobRec × List JobRec × List (Nat × String)) :=
  if isComplete j then Except.error CompleteErr.alreadyCompleted
  else if hasTimedOut j now then Except.error CompleteErr.timedOut
  else
    match Mongodb.updateRunningJob jobs j.id j.acquired j.timeout
        (completePatch j now nextOcc) with
    | (none, _) => Except.error CompleteErr.leaseLost
    | (some data, jobs') =>
      match result with
      | some r => Except.ok (data, jobs', Mongodb.writeJobResult results data.id r)
      | none => Except.ok (data, jobs', results)

/-- Patch assembled by Job._fail (job.js latest revision, lines 499-516):
`status='failed'`, `modified=now` and `try := try - 1`; when the job is
recurring the rearm fields are added on top: `scheduled=nextOccurrence`,
`acquired=null`, `timeout=null` and `try := 0` (overriding the decrement). -/
def failPatch (j : JobRec) (now nextOcc : Int) : Patch :=
  let update : Patch :=
    { emptyPatch with
      status := some Status.failed,
      modified := some now,
      try_ := some (j.try_ - 1) }
  if truthyStr j.recurring then
    { update with
      scheduled := some nextOcc,
      acquired := some none,
      timeout := some none,
      try_ := some 0 }
  else update

/-- Job._fail (job.js latest revision, lines 499-522): apply the fail patch
unconditionally through `updateJobById`. -/
def failJob (jobs : List JobRec) (j : JobRec) (now nextOcc : Int) :
    Option JobRec × List JobRec :=
  Mongodb.updateJobById jobs j.id (failPatch j now nextOcc)

/-- Errors raised by Job.updateTimeout: the two state guards, and the
ReferenceError raised past them. -/
inductive UpdateTimeoutErr where
  | completedJob
  | timedOutJob
  | undefinedRef
deriving DecidableEq

/-- Job.updateTimeout (job.js latest revision, lines 270-291): reject when
the job is complete or timed out. Past the guards the source executes
`this._db.updateRunningJob(job, { timeout })`, but the identifier `job` is
not bound anywhere in the method or in the module scope (the revision that
fixed the same slip in `_complete` by passing `this._data` left this call
site unchanged), so at runtime this line raises a ReferenceError before any
storage call is made; the computed `timeout = now + seconds` value is dead.
The embedding returns `undefinedRef` for that raise. -/
def updateTimeout (jobs : List JobRec) (j : JobRec) (seconds now : Int) :
    Except UpdateTimeoutErr (JobRec × List JobRec) :=
  if isComplete j then Except.error UpdateTimeoutErr.completedJob
  else if hasTimedOut j now then Except.error UpdateTimeoutErr.timedOutJob
  else Except.error UpdateTimeoutErr.undefinedRef

/-- Outcome handling of Job._save (job.js latest revision, lines 380-400)
applied to a saveJob result: a `duplicate-key` error is swallowed and
reported as `saved = false` with the job left as it was; success reports
`saved = true` with the post-save record; any other error is rethrown. -/
def saveOutcome (jobs : List JobRec) (job : JobRec)
    (r : Except Mongodb.SaveErr (List JobRec × JobRec)) :
    Except Mongodb.SaveErr (Bool × List JobRec × JobRec) :=
  match r with
  | Except.ok (store', data) => Except.ok (true, store', data)
  | Except.error Mongodb.SaveErr.duplicateKey => Except.ok (false, jobs, job)
  | Except.error Mongodb.SaveErr.storageFailure =>
      Except.error Mongodb.SaveErr.storageFailure

/-- Job._save composed with the connector's saveJob. -/
def jobSave (jobs : List JobRec) (job : JobRec) :
    Except Mongodb.SaveErr (Bool × List JobRec × JobRec) :=
  saveOutcome jobs job (Mongodb.saveJob jobs job)

/-- Scheduled-time computation of the Job constructor (job.js latest
revision, lines 246-257): take the caller's `scheduled` when supplied, else
the next cron occurrence when `recurring` is set; then, when `delay > 0`,
raise it to `max(scheduled-or-now, now + delay seconds)`. Times are in
milliseconds, so a delay of `d` seconds adds `d * 1000`. -/
def computeScheduled (scheduled : Option Int) (recurring : Option String)
    (delay : Int) (now nextOcc : Int) : Option Int :=
  let s := scheduled
  let s := if recurring.isSome && scheduled.isNone then some nextOcc else s
  if delay > 0 then some (max (s.getD now) (now + delay * 1000)) else s

/-- Fields assembled by the Job constructor from client inputs (job.js
latest revision, lines 240-263) before the record is persisted. -/
structure NewJobData where
  type : String
  message : Option String
  unique_id : Option String
  recurring : Option String
  scheduled : Option Int
  expire : Option Int
  retries : Int
  priority : Int
  client : String
deriving DecidableEq

/-- Job constructor from client inputs (job.js latest revision, lines
216-264): normalize `unique_id` and `recurring` through `x || null`, compute
`scheduled` as in `computeScheduled` (note the conditions use the raw
parameters, before normalization), and copy the remaining options. -/
def mkJobData (type : String) (message : Option String)
    (unique_id recurring : Option String) (scheduled expire : Option Int)
    (retries priority delay : Int) (now nextOcc : Int) (client : String) :
    NewJobData :=
  { type := type,
    message := message,
    unique_id := if truthyStr unique_id then unique_id else none,
    recurring := if truthyStr recurring then recurring else none,
    scheduled := computeScheduled scheduled recurring delay now nextOcc,
    expire := expire,
    retries := retries,
    priority := priority,
    client := client }

end Job

namespace JobQueue

/-- JobQueue.push (the engine file, latest revision, lines 269-293):
associate the job with storage, run Job._save, and return its saved flag;
`true` on insert, `false` on duplicate unique_id, any other storage error
propagates. -/
def push (jobs : List JobRec) (job : JobRec) :
    Except Mongodb.SaveErr (Bool × List JobRec × JobRec) :=
  Job.jobSave jobs job

/-- State of one entry of the engine's runningJobs map: the canceled flag,
the cancel listeners registered through onCancel (represented by
registration tokens, issued in order), and the log of listener invocations.
`nextTok` is the next registration token. -/
structure EntryState where
  canceled : Bool
  listeners : List Nat
  nextTok : Nat
  invoked : List Nat
deriving DecidableEq

/-- Entry state created by JobQueue._addRunningJob: canceled flag clear, no
listeners, nothing invoked. -/
def initEntry : EntryState :=
  { canceled := false, listeners := [], nextTok := 0, invoked := [] }

/-- JobQueue._cancelRunningJob restricted to one entry (the engine file,
latest revision, lines 670-688): return unchanged when the canceled flag is
already set; otherwise invoke every registered listener once and set the
flag. -/
def cancelRunningJob (s : EntryState) : EntryState :=
  if s.canceled then s
  else { s with invoked := s.invoked ++ s.listeners, canceled := true }

/-- Events that touch one runningJobs entry during its lifetime: a handler
registering a cancel listener through onCancel, a direct
_cancelRunningJob call (from cancel surfaces such as stop), and one
iteration of the 1 Hz _cancelTimedOutJobs supervisor, carrying whether
job.hasTimedOut held at that instant. -/
inductive EStep where
  | register
  | cancelRun
  | tick (timedOut : Bool)
deriving DecidableEq

/-- Transition of one runningJobs entry. `register` appends a fresh listener
token (JobQueue onCancel); `cancelRun` is _cancelRunningJob; `tick` is the
supervisor iteration (lines 643-653), which skips the entry when its
canceled flag is set or the job has not timed out. -/
def stepEntry (s : EntryState) : EStep → EntryState
  | EStep.register =>
      { s with listeners := s.listeners ++ [s.nextTok], nextTok := s.nextTok + 1 }
  | EStep.cancelRun => cancelRunningJob s
  | EStep.tick timedOut =>
      if s.canceled || !timedOut then s else cancelRunningJob s

/-- Life of one runningJobs entry under a sequence of events. -/
def runEntry (steps : List EStep) : EntryState :=
  steps.foldl stepEntry initEntry

end JobQueue

/-- Sample waiting row used by concrete witnesses. -/
def jWaiting : JobRec :=
  { id := 1, type := "t", unique_id := none, worker := none, recurring := none,
    status := Status.waiting, retries := 2, try_ := 0, priority := 5,
    scheduled := 0, acquired := none, timeout := none, expire := none,
    completed := none, created := 0, modified := 0, stopwatches := none }

/-- Sample canceled row (not eligible for polling). -/
def jCanceled : JobRec :=
  { jWaiting with id := 2, status := Status.canceled }

/-- Sample waiting row with a more urgent (lower) priority and later
creation time. -/
def jUrgent : JobRec :=
  { jWaiting with id := 3, priority := 0, created := 10 }

/-- C1: a job returned by pollForRunnableJob comes from a persisted row that
satisfies the selection predicate, where that predicate holds exactly when
the row's type is in the requested list, its scheduled time has passed, and
it is waiting, or running with an expired lock, or in error, or failed and
recurring; and when no persisted row satisfies the predicate the call
returns none and leaves the table unchanged. -/
theorem poll_selection_spec (store : List JobRec) (types : List String)
    (newTimeout : Int) (workerId : String) (now : Int) :
    (∀ j : JobRec, runnable now types j = true ↔
      (j.type ∈ types ∧ j.scheduled ≤ now ∧
        (j.status = Status.waiting ∨
         (j.status = Status.running ∧ ∃ t, j.timeout = some t ∧ t ≤ now) ∨
         j.status = Status.error ∨
         (j.status = Status.failed ∧ j.recurring ≠ none)))) ∧
    (∀ (j : JobRec) (store' : List JobRec),
      Mongodb.pollForRunnableJob store types newTimeout workerId now =
        (some j, store') →
      ∃ c, c ∈ store ∧ runnable now types c = true ∧
        j = claimUpdate now newTimeout workerId c) ∧
    ((∀ c ∈ store, runnable now types c = false) →
      Mongodb.pollForRunnableJob store types newTimeout workerId now =
        (none, store)) := by
  refine ⟨?_, ?_, ?_⟩
  · intro j
    unfold runnable timeoutElapsed
    cases ht : j.timeout with
    | none => simp [ht]; tauto
    | some t => simp [ht]; tauto
  · intro j store' h
    unfold Mongodb.pollForRunnableJob at h
    cases hp : pickMin (store.filter (runnable now types)) with
    | none => rw [hp] at h; simp at h
    | some c =>
      rw [hp] at h
      simp only [Prod.mk.injEq, Option.some.injEq] at h
      have hc := pickMin_mem hp
      rw [List.mem_filter] at hc
      exact ⟨c, hc.1, hc.2, h.1.symm⟩
  · intro hall
    have hfil : store.filter (runnable now types) = [] := by
      rw [List.filter_eq_nil_iff]
      intro a ha
      simp [hall a ha]
    unfold Mongodb.pollForRunnableJob
    rw [hfil]
    simp [pickMin]

/-- Concrete instantiation of the C1 theorem: a single eligible waiting row
is claimed and returned, and a table holding only a canceled row yields
none. -/
theorem poll_selection_witness :
    (∃ c, c ∈ [jWaiting] ∧ runnable 100 ["t"] c = true ∧
      claimUpdate 100 500 "w" jWaiting = claimUpdate 100 500 "w" c) ∧
    Mongodb.pollForRunnableJob [jCanceled] ["t"] 500 "w" 100 =
      (none, [jCanceled]) := by
  constructor
  · exact (poll_selection_spec [jWaiting] ["t"] 500 "w" 100).2.1
      (claimUpdate 100 500 "w" jWaiting)
      [claimUpdate 100 500 "w" jWaiting] (by decide)
  · exact (poll_selection_spec [jCanceled] ["t"] 500 "w" 100).2.2 (by decide)

/-- C3: whenever at least one persisted row is eligible, the row claimed by
pollForRunnableJob is minimal among the eligible rows under ascending
priority with ties broken by ascending created. -/
theorem poll_ordering_spec (store : List JobRec) (types : List String)
    (newTimeout : Int) (workerId : String) (now : Int) :
    ∀ c0 ∈ store, runnable now types c0 = true →
      ∃ m, m ∈ store ∧ runnable now types m = true ∧
        (∀ x ∈ store, runnable now types x = true → lexLE m x) ∧
        Mongodb.pollForRunnableJob store types newTimeout workerId now =
          (some (claimUpdate now newTimeout workerId m),
           store.map fun k =>
             if k.id = m.id then claimUpdate now newTimeout workerId m else k) := by
  intro c0 hc0 hr0
  have hmem : c0 ∈ store.filter (runnable now types) :=
    List.mem_filter.mpr ⟨hc0, hr0⟩
  cases hp : pickMin (store.filter (runnable now types)) with
  | none =>
    rw [pickMin_eq_none] at hp
    rw [hp] at hmem
    simp at hmem
  | some m =>
    have hm := pickMin_mem hp
    rw [List.mem_filter] at hm
    refine ⟨m, hm.1, hm.2, ?_, ?_⟩
    · intro x hx hrx
      exact pickMin_min hp x (List.mem_filter.mpr ⟨hx, hrx⟩)
    · unfold Mongodb.pollForRunnableJob
      rw [hp]

/-- Concrete instantiation of the C3 theorem: with one priority-5 row and one
priority-0 row both eligible, the priority-0 row is the one claimed. -/
theorem poll_ordering_witness :
    ∃ m, m ∈ [jWaiting, jUrgent] ∧ runnable 100 ["t"] m = true ∧
      (∀ x ∈ [jWaiting, jUrgent], runnable 100 ["t"] x = true → lexLE m x) ∧
      Mongodb.pollForRunnableJob [jWaiting, jUrgent] ["t"] 500 "w" 100 =
        (some (claimUpdate 100 500 "w" m),
         [jWaiting, jUrgent].map fun k =>
           if k.id = m.id then claimUpdate 100 500 "w" m else k) :=
  poll_ordering_spec [jWaiting, jUrgent] ["t"] 500 "w" 100 jUrgent
    (by decide) (by decide)

/-- C4: updateRunningJob applies its patch only to a row that still matches
the lease guard (same id, status running, same acquired, same timeout); when
no row matches the guard it returns none and leaves the table unchanged. -/
theorem update_running_job_guard_spec (store : List JobRec) (id : Nat)
    (acquired timeout : Option Int) (p : Patch) :
    ((∀ k ∈ store, leaseGuard id acquired timeout k = false) →
      Mongodb.updateRunningJob store id acquired timeout p = (none, store)) ∧
    (∀ (j' : JobRec) (store' : List JobRec),
      Mongodb.updateRunningJob store id acquired timeout p = (some j', store') →
      ∃ j, j ∈ store ∧ j.id = id ∧ j.status = Status.running ∧
        j.acquired = acquired ∧ j.timeout = timeout ∧
        j' = applyPatch p j ∧
        store' = store.map fun k => if k.id = id then j' else k) := by
  constructor
  · intro hall
    have hnone : store.find? (leaseGuard id acquired timeout) = none := by
      rw [List.find?_eq_none]
      intro x hx
      simp [hall x hx]
    unfold Mongodb.updateRunningJob
    rw [hnone]
  · intro j' store' h
    unfold Mongodb.updateRunningJob at h
    cases hf : store.find? (leaseGuard id acquired timeout) with
    | none => rw [hf] at h; simp at h
    | some j =>
      rw [hf] at h
      simp only [Prod.mk.injEq, Option.some.injEq] at h
      have hmem := List.mem_of_find?_eq_some hf
      have hguard := List.find?_some hf
      unfold leaseGuard at hguard
      rw [decide_eq_true_eq] at hguard
      obtain ⟨hid, hst, hacq, hto⟩ := hguard
      exact ⟨j, hmem, hid, hst, hacq, hto, h.1.symm, by rw [← h.2, ← h.1]⟩

/-- Sample running row holding a live lease. -/
def jRunning : JobRec :=
  { jWaiting with
    id := 4,
    status := Status.running,
    acquired := some 50,
    timeout := some 100000,
    worker := some ("w"),
    try_ := 1 }

/-- Concrete instantiation of the C4 theorem: a guard mismatch (stale
acquired value) leaves the table unchanged and returns none, and a matching
guard yields the patched row. -/
theorem update_running_job_guard_witness :
    Mongodb.updateRunningJob [jRunning] 4 (some 49) (some 100000) emptyPatch =
      (none, [jRunning]) ∧
    (∃ j, j ∈ [jRunning] ∧ j.id = 4 ∧ j.status = Status.running ∧
      j.acquired = some 50 ∧ j.timeout = some 100000 ∧
      applyPatch emptyPatch jRunning = applyPatch emptyPatch j ∧
      [applyPatch emptyPatch jRunning] =
        [jRunning].map fun k =>
          if k.id = 4 then applyPatch emptyPatch jRunning else k) := by
  constructor
  · exact (update_running_job_guard_spec [jRunning] 4 (some 49) (some 100000)
      emptyPatch).1 (by decide)
  · exact (update_running_job_guard_spec [jRunning] 4 (some 50) (some 100000)
      emptyPatch).2 (applyPatch emptyPatch jRunning)
      [applyPatch emptyPatch jRunning] (by decide)

/-- C2: on the SQLite backend a successful claim persists the full claim
update including the `try` increment, but the record handed back to the
caller is the candidate with only status, acquired, timeout, worker and
modified overwritten, so its `try` field keeps the pre-claim value and the
returned record is not the persisted post-image. Evaluated at a one-row
table holding an eligible waiting job with `try = 0`. -/
theorem sqlite_poll_returns_stale_try :
    Sqlite.pollForRunnableJob [jWaiting] [("t")] 500 ("w") 100 =
      (some (Sqlite.localClaimAssign 100 500 ("w") jWaiting),
       [claimUpdate 100 500 ("w") jWaiting]) ∧
    (Sqlite.localClaimAssign 100 500 ("w") jWaiting).try_ = 0 ∧
    (claimUpdate 100 500 ("w") jWaiting).try_ = 1 ∧
    Sqlite.localClaimAssign 100 500 ("w") jWaiting ≠
      claimUpdate 100 500 ("w") jWaiting := by decide

/-- C5: Job._complete rejects a completed or timed-out job; otherwise the
patch it routes through updateRunningJob on the current lease carries
`status='waiting'`, `scheduled=nextOccurrence`, cleared `acquired`,
`try=0` and cleared `timeout` when the job is recurring, and
`status='completed'`, `completed=now` and cleared `timeout` otherwise; a
null reply from updateRunningJob raises the lease-lost error with nothing
written, and on success a result row is appended exactly when the handler
result is non-null. -/
theorem job_complete_spec (jobs : List JobRec) (results : List (Nat × String))
    (j : JobRec) (result : Option String) (now nextOcc : Int) :
    (Job.isComplete j = true ∨ Job.hasTimedOut j now = true →
      Job.completeJob jobs results j result now nextOcc =
          Except.error Job.CompleteErr.alreadyCompleted ∨
        Job.completeJob jobs results j result now nextOcc =
          Except.error Job.CompleteErr.timedOut) ∧
    (Job.isComplete j = false → Job.hasTimedOut j now = false →
      (Job.truthyStr j.recurring = true →
        (Job.completePatch j now nextOcc).status = some Status.waiting ∧
        (Job.completePatch j now nextOcc).scheduled = some nextOcc ∧
        (Job.completePatch j now nextOcc).acquired = some none ∧
        (Job.completePatch j now nextOcc).try_ = some 0 ∧
        (Job.completePatch j now nextOcc).timeout = some none) ∧
      (Job.truthyStr j.recurring = false →
        (Job.completePatch j now nextOcc).status = some Status.completed ∧
        (Job.completePatch j now nextOcc).completed = some now ∧
        (Job.completePatch j now nextOcc).timeout = some none) ∧
      ((Mongodb.updateRunningJob jobs j.id j.acquired j.timeout
          (Job.completePatch j now nextOcc)).1 = none →
        Job.completeJob jobs results j result now nextOcc =
          Except.error Job.CompleteErr.leaseLost) ∧
      (∀ (data : JobRec) (jobs' : List JobRec),
        Mongodb.updateRunningJob jobs j.id j.acquired j.timeout
            (Job.completePatch j now nextOcc) = (some data, jobs') →
        Job.completeJob jobs results j result now nextOcc =
          Except.ok (data, jobs',
            match result with
            | some r => Mongodb.writeJobResult results data.id r
            | none => results))) := by
  constructor
  · intro h
    by_cases hc : Job.isComplete j = true
    · left
      unfold Job.completeJob
      rw [if_pos hc]
    · have hti : Job.hasTimedOut j now = true := by
        rcases h with h | h
        · exact absurd h hc
        · exact h
      right
      unfold Job.completeJob
      rw [if_neg hc, if_pos hti]
  · intro hc ht
    refine ⟨?_, ?_, ?_, ?_⟩
    · intro hr
      simp [Job.completePatch, emptyPatch, hr]
    · intro hr
      simp [Job.completePatch, emptyPatch, hr]
    · intro hnone
      rcases hu : Mongodb.updateRunningJob jobs j.id j.acquired j.timeout
          (Job.completePatch j now nextOcc) with ⟨fst, snd⟩
      rw [hu] at hnone
      simp only at hnone
      subst hnone
      simp [Job.completeJob, hc, ht, hu]
    · intro data jobs' hu
      cases result with
      | some r => simp [Job.completeJob, hc, ht, hu]
      | none => simp [Job.completeJob, hc, ht, hu]

/-- Concrete instantiation of the C5 theorem: completing a running job with
a live lease and handler result writes the patched row back and appends one
result row. -/
theorem job_complete_witness :
    Job.completeJob [jRunning] [] jRunning (some ("ok")) 100 999 =
      Except.ok (applyPatch (Job.completePatch jRunning 100 999) jRunning,
        [applyPatch (Job.completePatch jRunning 100 999) jRunning],
        Mongodb.writeJobResult []
          (applyPatch (Job.completePatch jRunning 100 999) jRunning).id
          ("ok")) :=
  ((job_complete_spec [jRunning] [] jRunning (some ("ok")) 100 999).2
    (by decide) (by decide)).2.2.2
    (applyPatch (Job.completePatch jRunning 100 999) jRunning)
    [applyPatch (Job.completePatch jRunning 100 999) jRunning] (by decide)

/-- C6: Job._fail patches `status='failed'` with `modified=now` and writes
`try := try - 1`; when the job is recurring the patch instead rearms it:
`scheduled=nextOccurrence`, `acquired` and `timeout` cleared to null, and
`try := 0`; the patch goes through the unconditional updateJobById. -/
theorem job_fail_spec (jobs : List JobRec) (j : JobRec) (now nextOcc : Int) :
    (Job.failPatch j now nextOcc).status = some Status.failed ∧
    (Job.failPatch j now nextOcc).modified = some now ∧
    (Job.truthyStr j.recurring = false →
      (Job.failPatch j now nextOcc).try_ = some (j.try_ - 1) ∧
      (Job.failPatch j now nextOcc).scheduled = none ∧
      (Job.failPatch j now nextOcc).acquired = none ∧
      (Job.failPatch j now nextOcc).timeout = none) ∧
    (Job.truthyStr j.recurring = true →
      (Job.failPatch j now nextOcc).scheduled = some nextOcc ∧
      (Job.failPatch j now nextOcc).acquired = some none ∧
      (Job.failPatch j now nextOcc).timeout = some none ∧
      (Job.failPatch j now nextOcc).try_ = some 0) ∧
    Job.failJob jobs j now nextOcc =
      Mongodb.updateJobById jobs j.id (Job.failPatch j now nextOcc) := by
  refine ⟨?_, ?_, ?_, ?_, rfl⟩
  · by_cases hr : Job.truthyStr j.recurring = true <;>
      simp [Job.failPatch, emptyPatch, hr]
  · by_cases hr : Job.truthyStr j.recurring = true <;>
      simp [Job.failPatch, emptyPatch, hr]
  · intro hr
    simp [Job.failPatch, emptyPatch, hr]
  · intro hr
    simp [Job.failPatch, emptyPatch, hr]

/-- Sample recurring running row. -/
def jRecurring : JobRec :=
  { jRunning with id := 5, recurring := some ("0 * * * *") }

/-- Concrete instantiation of the C6 theorem: the fail patch of a
non-recurring job decrements try, and that of a recurring job rearms it. -/
theorem job_fail_witness :
    ((Job.failPatch jRunning 100 999).try_ = some (jRunning.try_ - 1) ∧
      (Job.failPatch jRunning 100 999).scheduled = none ∧
      (Job.failPatch jRunning 100 999).acquired = none ∧
      (Job.failPatch jRunning 100 999).timeout = none) ∧
    ((Job.failPatch jRecurring 100 999).scheduled = some 999 ∧
      (Job.failPatch jRecurring 100 999).acquired = some none ∧
      (Job.failPatch jRecurring 100 999).timeout = some none ∧
      (Job.failPatch jRecurring 100 999).try_ = some 0) :=
  ⟨(job_fail_spec [jRunning] jRunning 100 999).2.2.1 (by decide),
   (job_fail_spec [jRecurring] jRecurring 100 999).2.2.2.1 (by decide)⟩

/-- C7: the constructor's scheduled computation uses a caller-supplied
`scheduled` when present, else the next cron occurrence when `recurring` is
set; and when `delay > 0` the result is `max(scheduled-or-now, now + delay)`
applied on top of the preceding rule (times in ms, delay in seconds). -/
theorem job_constructor_scheduled_spec (type client : String)
    (message unique_id recurring : Option String)
    (scheduled expire : Option Int) (retries priority delay now nextOcc : Int) :
    (Job.mkJobData type message unique_id recurring scheduled expire
        retries priority delay now nextOcc client).scheduled =
      Job.computeScheduled scheduled recurring delay now nextOcc ∧
    (∀ s, scheduled = some s →
      Job.computeScheduled scheduled recurring delay now nextOcc =
        if delay > 0 then some (max s (now + delay * 1000)) else some s) ∧
    (scheduled = none → recurring.isSome = true →
      Job.computeScheduled scheduled recurring delay now nextOcc =
        if delay > 0 then some (max nextOcc (now + delay * 1000))
        else some nextOcc) ∧
    (scheduled = none → recurring = none →
      Job.computeScheduled scheduled recurring delay now nextOcc =
        if delay > 0 then some (max now (now + delay * 1000)) else none) := by
  refine ⟨rfl, ?_, ?_, ?_⟩
  · intro s hs
    subst hs
    simp [Job.computeScheduled]
  · intro hs hr
    subst hs
    simp [Job.computeScheduled, hr]
  · intro hs hr
    subst hs
    subst hr
    simp [Job.computeScheduled]

/-- Concrete instantiation of the C7 theorem at each of its three branches,
with a positive delay of 7 seconds and now = 1000. -/
theorem job_constructor_scheduled_witness :
    Job.computeScheduled (some 5) none 7 1000 999 =
      (if (7 : Int) > 0 then some (max 5 (1000 + 7 * 1000)) else some 5) ∧
    Job.computeScheduled none (some ("0 * * * *")) 7 1000 999 =
      (if (7 : Int) > 0 then some (max 999 (1000 + 7 * 1000)) else some 999) ∧
    Job.computeScheduled none none 0 1000 999 =
      (if (0 : Int) > 0 then some (max 1000 (1000 + 0 * 1000)) else none) :=
  ⟨(job_constructor_scheduled_spec ("t") ("c") none none none (some 5) none
      2 0 7 1000 999).2.1 5 rfl,
   (job_constructor_scheduled_spec ("t") ("c") none none (some ("0 * * * *"))
      none none 2 0 7 1000 999).2.2.1 rfl (by decide),
   (job_constructor_scheduled_spec ("t") ("c") none none none none none
      2 0 0 1000 999).2.2.2 rfl rfl⟩

/-- C8: evaluation of the embedded Job.updateTimeout at a running job whose
lease is live: both state guards pass, yet the call raises the
ReferenceError modelled by `undefinedRef` instead of reaching
updateRunningJob, because the source line passes the unbound identifier
`job` as the lease. -/
theorem job_update_timeout_undefined_ref :
    Job.isComplete jRunning = false ∧
    Job.hasTimedOut jRunning 100 = false ∧
    Job.updateTimeout [jRunning] jRunning 30 100 =
      Except.error Job.UpdateTimeoutErr.undefinedRef := by decide

theorem push_inserts (store : List JobRec) (j : JobRec)
    (hdup : Mongodb.hasDuplicateUniqueId store j = false)
    (hfresh : ∀ k ∈ store, k.id ≠ j.id) :
    JobQueue.push store j = Except.ok (true, store ++ [j], j) := by
  have hany : (store.any fun k => decide (k.id = j.id)) = false := by
    rw [Bool.eq_false_iff]
    intro h
    rw [List.any_eq_true] at h
    obtain ⟨k, hk, hkid⟩ := h
    exact hfresh k hk (of_decide_eq_true hkid)
  unfold JobQueue.push Job.jobSave Mongodb.saveJob
  rw [hdup, hany]
  rfl

theorem push_duplicate (store : List JobRec) (j : JobRec)
    (hdup : Mongodb.hasDuplicateUniqueId store j = true) :
    JobQueue.push store j = Except.ok (false, store, j) := by
  unfold JobQueue.push Job.jobSave Mongodb.saveJob
  rw [hdup]
  rfl

theorem hasDuplicateUniqueId_iff (store : List JobRec) (j : JobRec) :
    Mongodb.hasDuplicateUniqueId store j = true ↔
      ∃ u, j.unique_id = some u ∧
        ∃ k ∈ store, k.id ≠ j.id ∧ k.unique_id = some u := by
  unfold Mongodb.hasDuplicateUniqueId
  cases hu : j.unique_id with
  | none => simp
  | some u => simp [List.any_eq_true]

/-- C9: JobQueue.push returns true exactly when saveJob inserts the job,
false when saveJob reports a duplicate unique_id, and rethrows any other
storage failure; hence two fresh job records sharing a unique_id push as
true then false, and since the failed push leaves the table unchanged every
later push of a fresh record with that unique_id is false as well. -/
theorem push_unique_dedup_spec (store : List JobRec) (j : JobRec) :
    (Mongodb.hasDuplicateUniqueId store j = false →
      (∀ k ∈ store, k.id ≠ j.id) →
      JobQueue.push store j = Except.ok (true, store ++ [j], j)) ∧
    (Mongodb.hasDuplicateUniqueId store j = true →
      JobQueue.push store j = Except.ok (false, store, j)) ∧
    (Mongodb.hasDuplicateUniqueId store j = true ↔
      ∃ u, j.unique_id = some u ∧
        ∃ k ∈ store, k.id ≠ j.id ∧ k.unique_id = some u) ∧
    Job.saveOutcome store j (Except.error Mongodb.SaveErr.storageFailure) =
      Except.error Mongodb.SaveErr.storageFailure ∧
    (∀ (u : String) (j2 : JobRec),
      j.unique_id = some u → j2.unique_id = some u → j2.id ≠ j.id →
      (∀ k ∈ store, k.unique_id ≠ some u) → (∀ k ∈ store, k.id ≠ j.id) →
      JobQueue.push store j = Except.ok (true, store ++ [j], j) ∧
      JobQueue.push (store ++ [j]) j2 = Except.ok (false, store ++ [j], j2)) := by
  refine ⟨push_inserts store j, push_duplicate store j,
    hasDuplicateUniqueId_iff store j, rfl, ?_⟩
  intro u j2 hju hj2u hid hnou hfresh
  have hdup1 : Mongodb.hasDuplicateUniqueId store j = false := by
    rw [Bool.eq_false_iff]
    intro h
    rw [hasDuplicateUniqueId_iff] at h
    obtain ⟨u', hu', k, hk, _, hku'⟩ := h
    rw [hju] at hu'
    cases hu'
    exact hnou k hk hku'
  refine ⟨push_inserts store j hdup1 hfresh, ?_⟩
  have hdup2 : Mongodb.hasDuplicateUniqueId (store ++ [j]) j2 = true := by
    rw [hasDuplicateUniqueId_iff]
    exact ⟨u, hj2u, j, by simp, fun h => hid h.symm, hju⟩
  exact push_duplicate (store ++ [j]) j2 hdup2

/-- Sample fresh job records sharing a unique id, used by the push witness. -/
def jDup1 : JobRec :=
  { jWaiting with id := 11, unique_id := some ("u1") }

/-- Second fresh record with the same unique id. -/
def jDup2 : JobRec :=
  { jWaiting with id := 12, unique_id := some ("u1") }

/-- Concrete instantiation of the C9 theorem: pushing two fresh records with
the same unique id into an empty table returns true then false. -/
theorem push_unique_dedup_witness :
    JobQueue.push [] jDup1 = Except.ok (true, [jDup1], jDup1) ∧
    JobQueue.push [jDup1] jDup2 = Except.ok (false, [jDup1], jDup2) := by
  have h := (push_unique_dedup_spec [] jDup1).2.2.2.2 ("u1") jDup2
    (by decide) (by decide) (by decide) (by simp) (by simp)
  simpa using h

/-- Invariant of one runningJobs entry: listener tokens are distinct and
below the issue counter, the invocation log has no duplicates, and nothing
has been invoked while the canceled flag is still clear. -/
def entryInv (s : JobQueue.EntryState) : Prop :=
  s.listeners.Nodup ∧ (∀ t ∈ s.listeners, t < s.nextTok) ∧
    s.invoked.Nodup ∧ (s.canceled = false → s.invoked = [])

theorem entryInv_init : entryInv JobQueue.initEntry := by
  refine ⟨List.nodup_nil, ?_, List.nodup_nil, fun _ => rfl⟩
  intro t ht
  simp [JobQueue.initEntry] at ht

theorem entryInv_cancelRun {s : JobQueue.EntryState} (h : entryInv s) :
    entryInv (JobQueue.cancelRunningJob s) := by
  obtain ⟨hn, hb, hin, hemp⟩ := h
  unfold JobQueue.cancelRunningJob
  by_cases hc : s.canceled
  · rw [if_pos hc]
    exact ⟨hn, hb, hin, hemp⟩
  · rw [if_neg hc]
    have hce : s.canceled = false := Bool.eq_false_iff.mpr hc
    refine ⟨hn, hb, ?_, ?_⟩
    · rw [hemp hce]
      simpa using hn
    · intro hfalse
      simp at hfalse

theorem entryInv_step {s : JobQueue.EntryState} (h : entryInv s)
    (e : JobQueue.EStep) : entryInv (JobQueue.stepEntry s e) := by
  obtain ⟨hn, hb, hin, hemp⟩ := h
  cases e with
  | register =>
    simp only [JobQueue.stepEntry]
    refine ⟨?_, ?_, hin, hemp⟩
    · rw [List.nodup_append]
      refine ⟨hn, List.nodup_singleton _, ?_⟩
      intro x hx hx'
      simp at hx'
      subst hx'
      exact absurd (hb _ hx) (lt_irrefl _)
    · intro x hx
      rcases List.mem_append.mp hx with hx | hx
      · exact Nat.lt_succ_of_lt (hb x hx)
      · simp at hx
        subst hx
        exact Nat.lt_succ_self _
  | cancelRun => exact entryInv_cancelRun ⟨hn, hb, hin, hemp⟩
  | tick t =>
    simp only [JobQueue.stepEntry]
    by_cases hc : (s.canceled || !t) = true
    · rw [if_pos hc]
      exact ⟨hn, hb, hin, hemp⟩
    · rw [if_neg hc]
      exact entryInv_cancelRun ⟨hn, hb, hin, hemp⟩

theorem entryInv_foldl (steps : List JobQueue.EStep) :
    ∀ s : JobQueue.EntryState, entryInv s →
      entryInv (steps.foldl JobQueue.stepEntry s) := by
  induction steps with
  | nil => intro s h; exact h
  | cons e rest ih =>
    intro s h
    exact ih _ (entryInv_step h e)

/-- C10: over the lifetime of one runningJobs entry, each cancel listener
registered through onCancel is invoked at most once: _cancelRunningJob is a
no-op once the canceled flag is set, the 1 Hz supervisor skips entries that
are canceled or whose job has not timed out, and along any event sequence
the invocation count of every listener token is at most one. -/
theorem cancel_listeners_at_most_once :
    (∀ s : JobQueue.EntryState,
      JobQueue.cancelRunningJob { s with canceled := true } =
        { s with canceled := true }) ∧
    (∀ (s : JobQueue.EntryState) (t : Bool),
      JobQueue.stepEntry { s with canceled := true } (JobQueue.EStep.tick t) =
        { s with canceled := true }) ∧
    (∀ s : JobQueue.EntryState,
      JobQueue.stepEntry s (JobQueue.EStep.tick false) = s) ∧
    (∀ (steps : List JobQueue.EStep) (tok : Nat),
      (JobQueue.runEntry steps).invoked.count tok ≤ 1) := by
  refine ⟨?_, ?_, ?_, ?_⟩
  · intro s
    simp [JobQueue.cancelRunningJob]
  · intro s t
    simp [JobQueue.stepEntry]
  · intro s
    simp [JobQueue.stepEntry]
  · intro steps tok
    have h := entryInv_foldl steps JobQueue.initEntry entryInv_init
    exact List.nodup_iff_count_le_one.mp h.2.2.1 tok

end Oddjob
